import Mathlib

/-!
Verification model of the teacher/student relationship service
(NestJS assessment repository).

The development shallowly embeds the core logic of the repository:

* `EmailUtils` (src/modules/shared/utils/email.utils.ts): validation via
  `EMAIL_REGEX = /^[^\s@]+@[^\s@]+\.[^\s@]+$/`, mention extraction via
  `MENTION_REGEX = /@([^\s@]+@[^\s@]+\.[^\s@]+)/g`, trimming/lower-casing
  normalization and first-seen-order deduplication (JS `Set` semantics).
* `StudentService` (src/modules/student/student.service.ts): lookup,
  batch upsert (`bulkCreateStudents`), suspension, filtered lookups.
* `TeacherService` (src/modules/teacher/teacher.service.ts): registration,
  common students, notification recipients.

Strings are modelled as Lean `String` (lists of characters).  JavaScript
`toLowerCase` is modelled on the ASCII letters (the identifiers handled by
the service are email-shaped ASCII tokens); JS `\s` is modelled by the
ECMAScript white-space set.  The backing TypeORM store is modelled as an
explicit record of student rows and teacher rows (with the loaded
many-to-many membership as a list of student ids); a `saveFails` flag
models the storage layer failing on the batch-insert call (the `catch`
branch of `bulkCreateStudents`).
-/

namespace SchoolSys

/-- Character class of ECMAScript `\s` (white space and line terminators),
used by both regexes of `VALIDATION_RULES` and by `String.prototype.trim`. -/
def isJsSpace (c : Char) : Bool :=
  c = ' ' || c = '\t' || c = '\n' || c = '\r' || c = '\x0b' || c = '\x0c' ||
  c = '\u00a0' || c = '\u1680' ||
  (0x2000 ≤ c.toNat && c.toNat ≤ 0x200a) ||
  c = '\u2028' || c = '\u2029' || c = '\u202f' || c = '\u205f' ||
  c = '\u3000' || c = '\ufeff'

/-- Character class `[^\s@]` used in both `EMAIL_REGEX` and `MENTION_REGEX`. -/
def isTokenChar (c : Char) : Bool :=
  !isJsSpace c && c ≠ '@'

/-- ASCII lower-casing of a single character, modelling JS `toLowerCase`
on the ASCII range (all identifiers treated by the service are ASCII). -/
def lowerChar (c : Char) : Char :=
  match c with
  | 'A' => 'a' | 'B' => 'b' | 'C' => 'c' | 'D' => 'd' | 'E' => 'e'
  | 'F' => 'f' | 'G' => 'g' | 'H' => 'h' | 'I' => 'i' | 'J' => 'j'
  | 'K' => 'k' | 'L' => 'l' | 'M' => 'm' | 'N' => 'n' | 'O' => 'o'
  | 'P' => 'p' | 'Q' => 'q' | 'R' => 'r' | 'S' => 's' | 'T' => 't'
  | 'U' => 'u' | 'V' => 'v' | 'W' => 'w' | 'X' => 'x' | 'Y' => 'y'
  | 'Z' => 'z'
  | c => c

/-- JS `String.prototype.trim`: drop leading and trailing white space. -/
def trimChars (l : List Char) : List Char :=
  ((l.dropWhile isJsSpace).reverse.dropWhile isJsSpace).reverse

/-- `EmailUtils.normalizeEmail`: `email.trim().toLowerCase()`. -/
def normalizeEmail (s : String) : String :=
  ⟨(trimChars s.data).map lowerChar⟩

/-- Interior-dot test: the character list contains a `'.'` that is neither
its first nor its last element.  This is exactly when a list of
`[^\s@]`-characters can be split as `[^\s@]+ \. [^\s@]+`. -/
def hasInteriorDot (l : List Char) : Bool :=
  ((l.drop 1).dropLast).contains '.'

/-- Anchored match of `EMAIL_REGEX = /^[^\s@]+@[^\s@]+\.[^\s@]+$/` on a
character list: a non-empty `[^\s@]` block, an `@`, then a `[^\s@]` block
containing an interior dot.  Since `[^\s@]` excludes `@`, the split must
happen at the first `@` of the list. -/
def emailShape (l : List Char) : Bool :=
  let localPart := l.takeWhile (fun c => c ≠ '@')
  match l.dropWhile (fun c => c ≠ '@') with
  | '@' :: domain =>
      !localPart.isEmpty && localPart.all isTokenChar &&
      domain.all isTokenChar && hasInteriorDot domain
  | _ => false

/-- `EmailUtils.isValidEmail`: `EMAIL_REGEX.test(email)`. -/
def isValidEmail (s : String) : Bool :=
  emailShape s.data

/-- First-seen-order deduplication, parametrised by the set of already-seen
elements; this is the iteration order of a JS `Set` built from a list. -/
def dedupSeen {α : Type} [DecidableEq α] (seen : List α) : List α → List α
  | [] => []
  | a :: l =>
      if a ∈ seen then dedupSeen seen l
      else a :: dedupSeen (a :: seen) l

/-- `EmailUtils.removeDuplicateEmails`: `[...new Set(emails)]`. -/
def removeDuplicateEmails (emails : List String) : List String :=
  dedupSeen [] emails

/-- `EmailUtils.filterValidEmails`: dedupe (raw values, first-seen order),
then keep the entries whose raw form passes `isValidEmail`. -/
def filterValidEmails (emails : List String) : List String :=
  (removeDuplicateEmails emails).filter (fun email => isValidEmail email)

/-- `EmailUtils.normalizeEmails`: normalize every entry, then dedupe the
normalized values in first-seen order. -/
def normalizeEmails (emails : List String) : List String :=
  removeDuplicateEmails (emails.map (fun email => normalizeEmail email))

/-- One attempt of `MENTION_REGEX = /@([^\s@]+@[^\s@]+\.[^\s@]+)/` at a
position just after a literal `@`: the first `[^\s@]+` is the maximal
token run (backtracking cannot shorten it, since a shorter run is still
followed by a token character, never by `@`); after the inner `@`, greedy
matching with backtracking succeeds exactly when the maximal token run has
an interior dot, and then consumes that whole run.  Returns the captured
group together with the rest of the input after the match. -/
def tryMention (l : List Char) : Option (List Char × List Char) :=
  let localPart := l.takeWhile isTokenChar
  if localPart.isEmpty then none
  else
    match l.dropWhile isTokenChar with
    | '@' :: rest =>
        let run := rest.takeWhile isTokenChar
        if hasInteriorDot run then
          some (localPart ++ '@' :: run, rest.dropWhile isTokenChar)
        else none
    | _ => none

/-- Scan of `matchAll(MENTION_REGEX)`: try a match at every `@`, continue
after the end of a successful match, advance one character otherwise.
The `fuel` argument (instantiated with the input length) makes the
recursion structural; the remaining input shrinks at every step. -/
def scanMentions (fuel : Nat) (l : List Char) : List (List Char) :=
  match fuel, l with
  | 0, _ => []
  | _, [] => []
  | fuel + 1, c :: rest =>
      if c = '@' then
        match tryMention rest with
        | some (captured, remaining) => captured :: scanMentions fuel remaining
        | none => scanMentions fuel rest
      else scanMentions fuel rest

/-- `EmailUtils.extractMentionedEmails`: collect the capture groups of
`matchAll(MENTION_REGEX)`, keep the non-empty ones that pass
`isValidEmail`, and dedupe in first-seen order. -/
def extractMentionedEmails (notification : String) : List String :=
  removeDuplicateEmails
    (((scanMentions notification.data.length notification.data).map
        (fun captured => (⟨captured⟩ : String))).filter
      (fun captured => !captured.isEmpty && isValidEmail captured))

/-- Error kinds raised by the services (`BadRequestException` with
`INVALID_EMAIL_FORMAT`, `BadRequestException` with an empty-list message,
`NotFoundException`). -/
inductive ServiceError where
  | invalidEmail
  | emptyList
  | notFound
deriving DecidableEq, Repr

deriving instance DecidableEq for Except

/-- `ERROR_MESSAGES.INVALID_EMAIL_FORMAT`. -/
def INVALID_EMAIL_FORMAT : String := "Invalid email format"

/-- `ERROR_MESSAGES.DATABASE_ERROR`, the per-item reason recorded when the
batch-create step of `bulkCreateStudents` fails (the spec's
`StorageFailure`). -/
def DATABASE_ERROR : String := "Database operation failed"

/-- A student row (`students` table): surrogate id, unique email,
suspension flag. -/
structure Student where
  id : Nat
  email : String
  suspended : Bool
deriving DecidableEq, Repr

/-- A teacher row (`teachers` table) together with its loaded
many-to-many membership (`teacher.students`), kept as student ids. -/
structure Teacher where
  id : Nat
  email : String
  studentIds : List Nat
deriving DecidableEq, Repr

/-- The backing store: the two tables and the next auto-increment id. -/
structure Store where
  students : List Student
  teachers : List Teacher
  nextId : Nat
deriving DecidableEq, Repr

/-- Well-formedness of the store: unique emails and ids per table, and
every student id below the auto-increment counter. -/
def Store.WF (st : Store) : Prop :=
  (st.students.map Student.email).Nodup ∧
  (st.students.map Student.id).Nodup ∧
  (st.teachers.map Teacher.email).Nodup ∧
  (st.teachers.map Teacher.id).Nodup ∧
  ∀ s ∈ st.students, s.id < st.nextId

/-- Insertion sort step for a boolean comparison. -/
def insertLe {α : Type} (le : α → α → Bool) (a : α) : List α → List α
  | [] => [a]
  | b :: l => if le a b then a :: b :: l else b :: insertLe le a l

/-- Insertion sort for a boolean comparison; models both JS
`Array.prototype.sort()` and the SQL `ORDER BY email ASC` of the
query-builder paths. -/
def sortLe {α : Type} (le : α → α → Bool) : List α → List α
  | [] => []
  | a :: l => insertLe le a (sortLe le l)

/-- Lexicographic sort of string lists (JS default `sort()`). -/
def sortStrings (l : List String) : List String :=
  sortLe (fun a b => decide (a ≤ b)) l

/-- Sort student rows by email (`ORDER BY student.email ASC`). -/
def sortStudentsByEmail (l : List Student) : List Student :=
  sortLe (fun a b => decide (a.email ≤ b.email)) l

/-- `StudentService.findStudentsByEmails`: empty input short-circuits;
otherwise filter/dedupe/validate the batch, normalize it, and return the
stored rows whose email is in the normalized set (store order). -/
def findStudentsByEmails (st : Store) (emails : List String) : List Student :=
  if emails.isEmpty then []
  else
    let validEmails := filterValidEmails emails
    if validEmails.isEmpty then []
    else
      let normalizedEmails := normalizeEmails validEmails
      st.students.filter (fun s => normalizedEmails.contains s.email)

/-- Result record of `bulkCreateStudents`
(`IBatchOperationResult<Student>`). -/
structure BatchResult where
  successful : List Student
  failed : List (String × String)
  totalProcessed : Nat
deriving DecidableEq, Repr

/-- Fresh rows created by `repository.save` for a list of new emails:
sequential ids from the auto-increment counter, `suspended = false`. -/
def mkStudents (startId : Nat) : List String → List Student
  | [] => []
  | e :: rest => ⟨startId, e, false⟩ :: mkStudents (startId + 1) rest

/-- The normalized, deduplicated batch considered by `bulkCreateStudents`
after validation (`normalizedEmails` in the source). -/
def bulkNormalized (emails : List String) : List String :=
  normalizeEmails (filterValidEmails emails)

/-- The pre-existing rows matching the batch (`existingStudents` in the
source). -/
def bulkExisting (st : Store) (emails : List String) : List Student :=
  findStudentsByEmails st (bulkNormalized emails)

/-- The normalized entries with no pre-existing row (`newEmails` in the
source). -/
def bulkNewEmails (st : Store) (emails : List String) : List String :=
  (bulkNormalized emails).filter
    (fun e => !((bulkExisting st emails).map Student.email).contains e)

/-- `StudentService.bulkCreateStudents`.  `totalProcessed` is the raw input
length; raw entries failing validation are recorded in `failed` with
`INVALID_EMAIL_FORMAT`; pre-existing rows are pushed into `successful`;
the remaining normalized entries are created in one `save` call.
`saveFails = true` models that `save` call throwing (storage failure): the
`catch` block then records every normalized entry — including the ones
that matched pre-existing rows — in `failed` with `DATABASE_ERROR`, while
`successful` keeps the pre-existing rows pushed before the failure and the
store is unchanged. -/
def bulkCreateStudents (saveFails : Bool) (st : Store) (emails : List String) :
    BatchResult × Store :=
  if emails.isEmpty then (⟨[], [], emails.length⟩, st)
  else
    let validEmails := filterValidEmails emails
    let invalidFailed :=
      (emails.filter (fun e => !isValidEmail e)).map
        (fun e => (e, INVALID_EMAIL_FORMAT))
    if validEmails.isEmpty then (⟨[], invalidFailed, emails.length⟩, st)
    else
      let normalizedEmails := bulkNormalized emails
      let existing := bulkExisting st emails
      let newEmails := bulkNewEmails st emails
      if newEmails.isEmpty then (⟨existing, invalidFailed, emails.length⟩, st)
      else if saveFails then
        (⟨existing,
          invalidFailed ++ normalizedEmails.map (fun e => (e, DATABASE_ERROR)),
          emails.length⟩, st)
      else
        let created := mkStudents st.nextId newEmails
        (⟨existing ++ created, invalidFailed, emails.length⟩,
         { st with
            students := st.students ++ created,
            nextId := st.nextId + newEmails.length })

/-- `StudentService.suspendStudent`: validate the normalized email, then a
conditional `UPDATE ... WHERE email = :email SET suspended = true`;
`NotFoundException` exactly when no row matched. -/
def suspendStudent (st : Store) (email : String) : Except ServiceError Store :=
  let normalizedEmail := normalizeEmail email
  if !isValidEmail normalizedEmail then .error .invalidEmail
  else if st.students.all (fun s => s.email ≠ normalizedEmail) then
    .error .notFound
  else
    .ok { st with
          students := st.students.map
            (fun s => if s.email = normalizedEmail then
              { s with suspended := true } else s) }

/-- `StudentService.getStudentsByEmails`: filter/dedupe/validate/normalize
the batch, return matching rows, excluding suspended ones unless
`includeSuspended`, ordered by email. -/
def getStudentsByEmails (st : Store) (emails : List String)
    (includeSuspended : Bool) : List Student :=
  if emails.isEmpty then []
  else
    let validEmails := filterValidEmails emails
    if validEmails.isEmpty then []
    else
      let normalizedEmails := normalizeEmails validEmails
      sortStudentsByEmail
        (st.students.filter (fun s =>
          normalizedEmails.contains s.email &&
          (includeSuspended || !s.suspended)))

/-- `TeacherService.findTeacherByEmail`: validate the normalized email and
return the first stored teacher with that email (with its membership
loaded), or `none`. -/
def findTeacherByEmail (st : Store) (email : String) :
    Except ServiceError (Option Teacher) :=
  let normalizedEmail := normalizeEmail email
  if !isValidEmail normalizedEmail then .error .invalidEmail
  else .ok (st.teachers.find? (fun t => t.email = normalizedEmail))

/-- The emails of a teacher's non-suspended members
(`teacher.students.filter(s => !s.suspended).map(s => s.email)`), with the
membership relation resolved against the store. -/
def activeMemberEmails (st : Store) (t : Teacher) : List String :=
  ((st.students.filter (fun s => t.studentIds.contains s.id)).filter
    (fun s => !s.suspended)).map Student.email

/-- Persisting `{...teacher, students: [...teacher.students, ...new]}`:
replace the membership list of the teacher with the given id. -/
def saveTeacherStudents (st : Store) (tid : Nat) (ids : List Nat) : Store :=
  { st with
    teachers := st.teachers.map
      (fun t => if t.id = tid then { t with studentIds := ids } else t) }

/-- `TeacherService.registerStudentsToTeacher`: empty list is a
`BadRequest`; the teacher must already exist (`NotFoundException`
otherwise — never auto-created); student emails are filtered/deduped
(`BadRequest` if none survive); students are resolved or created via
`bulkCreateStudents`; an empty resolution is a logged no-op; only the
resolved students whose id is not already in the membership are appended. -/
def registerStudentsToTeacher (saveFails : Bool) (st : Store)
    (teacherEmail : String) (studentEmails : List String) :
    Except ServiceError Store :=
  if studentEmails.isEmpty then .error .emptyList
  else
    let normalizedTeacherEmail := normalizeEmail teacherEmail
    match findTeacherByEmail st normalizedTeacherEmail with
    | .error e => .error e
    | .ok none => .error .notFound
    | .ok (some teacher) =>
      let validStudentEmails := filterValidEmails studentEmails
      if validStudentEmails.isEmpty then .error .invalidEmail
      else
        let result := bulkCreateStudents saveFails st validStudentEmails
        let students := result.1.successful
        let st' := result.2
        if students.isEmpty then .ok st'
        else
          let newStudents :=
            students.filter (fun s => !teacher.studentIds.contains s.id)
          if newStudents.isEmpty then .ok st'
          else
            .ok (saveTeacherStudents st' teacher.id
              (teacher.studentIds ++ newStudents.map Student.id))

/-- `TeacherService.getTeacherStudents`: `NotFoundException` if the teacher
does not exist; otherwise the sorted emails of its non-suspended members. -/
def getTeacherStudents (st : Store) (teacherEmail : String) :
    Except ServiceError (List String) :=
  match findTeacherByEmail st teacherEmail with
  | .error e => .error e
  | .ok none => .error .notFound
  | .ok (some teacher) => .ok (sortStrings (activeMemberEmails st teacher))

/-- `TeacherService.getCommonStudents`: validate and dedupe the requested
teacher emails; batch-fetch the named teachers; if some requested email
resolved to no teacher, return `[]` rather than failing; for a single
teacher return its sorted active-member emails; otherwise intersect the
active-member email sets (first set filtered by membership in the rest)
and sort. -/
def getCommonStudents (st : Store) (teacherEmails : List String) :
    Except ServiceError (List String) :=
  if teacherEmails.isEmpty then .error .emptyList
  else
    let validTeacherEmails := filterValidEmails teacherEmails
    if validTeacherEmails.isEmpty then .error .invalidEmail
    else
      let normalizedTeacherEmails := normalizeEmails validTeacherEmails
      let teachers :=
        st.teachers.filter (fun t => normalizedTeacherEmails.contains t.email)
      if teachers.length ≠ normalizedTeacherEmails.length then .ok []
      else
        match teachers with
        | [] => .ok []
        | [teacher] => .ok (sortStrings (activeMemberEmails st teacher))
        | first :: others =>
          .ok (sortStrings
            ((dedupSeen [] (activeMemberEmails st first)).filter
              (fun e => others.all
                (fun t => (activeMemberEmails st t).contains e))))

/-- The mentioned-students contribution of
`TeacherService.getNotificationRecipients`: emails extracted from the
notification, resolved against existing non-suspended students only
(mentions never create students). -/
def mentionedActiveEmails (st : Store) (notification : String) : List String :=
  let mentionedEmails := extractMentionedEmails notification
  if mentionedEmails.isEmpty then []
  else (getStudentsByEmails st mentionedEmails false).map Student.email

/-- `TeacherService.getNotificationRecipients`: the teacher's registered
active students (any lookup error — unknown teacher or invalid email — is
swallowed by `.catch(() => [])`) unioned with the mentioned existing
active students, deduplicated and sorted. -/
def getNotificationRecipients (st : Store) (teacherEmail : String)
    (notification : String) : List String :=
  let normalizedTeacherEmail := normalizeEmail teacherEmail
  let registeredStudents :=
    match getTeacherStudents st normalizedTeacherEmail with
    | .ok l => l
    | .error _ => []
  sortStrings
    (dedupSeen [] (registeredStudents ++ mentionedActiveEmails st notification))

/-! Character-level lemmas about the ASCII lower-casing map. -/

theorem lowerChar_cases (c : Char) :
    lowerChar c = c ∨ lowerChar c ∈
      ['a', 'b', 'c', 'd', 'e', 'f', 'g', 'h', 'i', 'j', 'k', 'l', 'm',
       'n', 'o', 'p', 'q', 'r', 's', 't', 'u', 'v', 'w', 'x', 'y', 'z'] := by
  unfold lowerChar
  split <;> first | (left; rfl) | (right; decide)

theorem lowerChar_idem (c : Char) : lowerChar (lowerChar c) = lowerChar c := by
  rcases lowerChar_cases c with h | h
  · rw [h, h]
  · have hfix : ∀ d ∈
        ['a', 'b', 'c', 'd', 'e', 'f', 'g', 'h', 'i', 'j', 'k', 'l', 'm',
         'n', 'o', 'p', 'q', 'r', 's', 't', 'u', 'v', 'w', 'x', 'y', 'z'],
        lowerChar d = d := by decide
    rw [hfix _ h]

theorem isJsSpace_lowerChar (c : Char) : isJsSpace (lowerChar c) = isJsSpace c := by
  unfold lowerChar
  split <;> rfl

theorem lowerChar_at_iff (c : Char) : lowerChar c = '@' ↔ c = '@' := by
  unfold lowerChar
  split <;> first | exact Iff.rfl | decide

theorem lowerChar_dot_iff (c : Char) : lowerChar c = '.' ↔ c = '.' := by
  unfold lowerChar
  split <;> first | exact Iff.rfl | decide

theorem isTokenChar_lowerChar (c : Char) :
    isTokenChar (lowerChar c) = isTokenChar c := by
  simp [isTokenChar, isJsSpace_lowerChar, lowerChar_at_iff]

/-! List lemmas about `dropWhile`, `takeWhile` and trimming. -/

theorem length_dropWhile_le {α : Type} (p : α → Bool) (l : List α) :
    (l.dropWhile p).length ≤ l.length := by
  induction l with
  | nil => simp
  | cons a l ih =>
    by_cases h : p a = true
    · rw [List.dropWhile_cons, if_pos h]
      exact Nat.le_trans ih (Nat.le_succ _)
    · rw [List.dropWhile_cons, if_neg h]

theorem dropWhile_self {α : Type} (p : α → Bool) (l : List α) :
    (l.dropWhile p).dropWhile p = l.dropWhile p := by
  induction l with
  | nil => rfl
  | cons a l ih =>
    by_cases h : p a = true
    · simp [List.dropWhile_cons, h, ih]
    · simp [List.dropWhile_cons, h]

theorem head_false_of_dropWhile_eq {α : Type} {p : α → Bool} {a : α}
    {t : List α} (h : (a :: t).dropWhile p = a :: t) : p a = false := by
  by_cases hpa : p a = true
  · exfalso
    rw [List.dropWhile_cons, if_pos hpa] at h
    have hlen := congrArg List.length h
    have hle : (t.dropWhile p).length ≤ t.length := length_dropWhile_le p t
    simp at hlen
    omega
  · simpa using hpa

theorem dropWhile_eq_self_of_prefix {α : Type} {p : α → Bool} {l m : List α}
    (hl : l.dropWhile p = l) (hm : m <+: l) : m.dropWhile p = m := by
  cases m with
  | nil => rfl
  | cons a t =>
    cases l with
    | nil => simp at hm
    | cons b u =>
      obtain ⟨r, hr⟩ := hm
      have hab : a = b := by
        have := congrArg (fun x => x.head?) hr
        simpa using this
      subst hab
      have hpa : p a = false := head_false_of_dropWhile_eq hl
      simp [List.dropWhile_cons, hpa]

theorem exists_dropWhile_append {α : Type} (p : α → Bool) (l : List α) :
    ∃ t, l = t ++ l.dropWhile p := by
  induction l with
  | nil => exact ⟨[], rfl⟩
  | cons a l ih =>
    by_cases h : p a = true
    · obtain ⟨t, ht⟩ := ih
      refine ⟨a :: t, ?_⟩
      rw [List.dropWhile_cons, if_pos h]
      simpa using ht
    · exact ⟨[], by rw [List.dropWhile_cons, if_neg h]; rfl⟩

theorem trimChars_prefix_dropWhile (l : List Char) :
    trimChars l <+: l.dropWhile isJsSpace := by
  obtain ⟨t, ht⟩ :=
    exists_dropWhile_append isJsSpace (l.dropWhile isJsSpace).reverse
  refine ⟨t.reverse, ?_⟩
  have := congrArg List.reverse ht
  simpa [trimChars, List.reverse_append] using this.symm

theorem dropWhile_trimChars (l : List Char) :
    (trimChars l).dropWhile isJsSpace = trimChars l :=
  dropWhile_eq_self_of_prefix (dropWhile_self isJsSpace l)
    (trimChars_prefix_dropWhile l)

theorem trimChars_idem (l : List Char) :
    trimChars (trimChars l) = trimChars l := by
  show (((trimChars l).dropWhile isJsSpace).reverse.dropWhile isJsSpace).reverse
      = trimChars l
  rw [dropWhile_trimChars]
  have h1 : (trimChars l).reverse
      = (l.dropWhile isJsSpace).reverse.dropWhile isJsSpace := by
    simp [trimChars]
  rw [h1, dropWhile_self]
  simp [trimChars]

theorem dropWhile_map_eq {α β : Type} (f : α → β) (p : β → Bool) (q : α → Bool)
    (h : ∀ a, p (f a) = q a) (l : List α) :
    (l.map f).dropWhile p = (l.dropWhile q).map f := by
  induction l with
  | nil => rfl
  | cons a l ih =>
    by_cases ha : q a = true
    · simp [List.dropWhile_cons, h, ha, ih]
    · simp [List.dropWhile_cons, h, ha]

theorem takeWhile_map_eq {α β : Type} (f : α → β) (p : β → Bool) (q : α → Bool)
    (h : ∀ a, p (f a) = q a) (l : List α) :
    (l.map f).takeWhile p = (l.takeWhile q).map f := by
  induction l with
  | nil => rfl
  | cons a l ih =>
    by_cases ha : q a = true
    · simp [List.takeWhile_cons, h, ha, ih]
    · simp [List.takeWhile_cons, h, ha]

theorem trimChars_map_lower (l : List Char) :
    trimChars (l.map lowerChar) = (trimChars l).map lowerChar := by
  unfold trimChars
  rw [dropWhile_map_eq lowerChar isJsSpace isJsSpace isJsSpace_lowerChar,
      ← List.map_reverse,
      dropWhile_map_eq lowerChar isJsSpace isJsSpace isJsSpace_lowerChar,
      ← List.map_reverse]

theorem normalizeEmail_data (s : String) :
    (normalizeEmail s).data = (trimChars s.data).map lowerChar := rfl

theorem normalizeEmail_idem (s : String) :
    normalizeEmail (normalizeEmail s) = normalizeEmail s := by
  apply congrArg String.mk
  show (trimChars ((trimChars s.data).map lowerChar)).map lowerChar
      = (trimChars s.data).map lowerChar
  rw [trimChars_map_lower, trimChars_idem, List.map_map]
  exact List.map_congr_left (fun a _ => lowerChar_idem a)

/-! Lemmas about first-seen-order deduplication. -/

theorem mem_dedupSeen {α : Type} [DecidableEq α] (seen l : List α) (a : α) :
    a ∈ dedupSeen seen l ↔ a ∈ l ∧ a ∉ seen := by
  induction l generalizing seen with
  | nil => simp [dedupSeen]
  | cons b t ih =>
    by_cases hb : b ∈ seen
    · simp only [dedupSeen, if_pos hb, ih, List.mem_cons]
      constructor
      · rintro ⟨h1, h2⟩; exact ⟨Or.inr h1, h2⟩
      · rintro ⟨h1 | h1, h2⟩
        · exact absurd (h1 ▸ hb) h2
        · exact ⟨h1, h2⟩
    · simp only [dedupSeen, if_neg hb, List.mem_cons, ih]
      constructor
      · rintro (rfl | ⟨h1, h2⟩)
        · exact ⟨Or.inl rfl, hb⟩
        · exact ⟨Or.inr h1, fun hx => h2 (Or.inr hx)⟩
      · rintro ⟨rfl | h1, h2⟩
        · exact Or.inl rfl
        · by_cases hab : a = b
          · exact Or.inl hab
          · exact Or.inr ⟨h1, by simp [hab, h2]⟩

theorem nodup_dedupSeen {α : Type} [DecidableEq α] (seen l : List α) :
    (dedupSeen seen l).Nodup := by
  induction l generalizing seen with
  | nil => simp [dedupSeen]
  | cons b t ih =>
    by_cases hb : b ∈ seen
    · simp only [dedupSeen, if_pos hb]; exact ih seen
    · simp only [dedupSeen, if_neg hb, List.nodup_cons]
      refine ⟨fun hmem => ?_, ih _⟩
      rw [mem_dedupSeen] at hmem
      exact hmem.2 (List.mem_cons_self _ _)

theorem dedupSeen_eq_self {α : Type} [DecidableEq α] (seen l : List α)
    (hl : l.Nodup) (hdisj : ∀ a ∈ l, a ∉ seen) : dedupSeen seen l = l := by
  induction l generalizing seen with
  | nil => rfl
  | cons b t ih =>
    rw [List.nodup_cons] at hl
    have hb : b ∉ seen := hdisj b (List.mem_cons_self _ _)
    simp only [dedupSeen, if_neg hb]
    refine congrArg (b :: ·) (ih _ hl.2 fun a ha => ?_)
    intro hmem
    rcases List.mem_cons.1 hmem with rfl | hmem
    · exact hl.1 ha
    · exact hdisj a (List.mem_cons_of_mem _ ha) hmem

theorem dedupSeen_length_le {α : Type} [DecidableEq α] (seen l : List α) :
    (dedupSeen seen l).length ≤ l.length := by
  induction l generalizing seen with
  | nil => simp [dedupSeen]
  | cons b t ih =>
    by_cases hb : b ∈ seen
    · simp only [dedupSeen, if_pos hb]
      exact Nat.le_trans (ih seen) (Nat.le_succ _)
    · simp only [dedupSeen, if_neg hb, List.length_cons]
      exact Nat.succ_le_succ (ih _)

theorem filter_dedupSeen {α : Type} [DecidableEq α] (p : α → Bool)
    (seen₁ seen₂ l : List α)
    (h : ∀ x, p x = true → (x ∈ seen₁ ↔ x ∈ seen₂)) :
    (dedupSeen seen₁ l).filter p = dedupSeen seen₂ (l.filter p) := by
  induction l generalizing seen₁ seen₂ with
  | nil => rfl
  | cons b t ih =>
    by_cases hpb : p b = true
    · by_cases hb : b ∈ seen₁
      · have hb₂ : b ∈ seen₂ := (h b hpb).1 hb
        rw [List.filter_cons, if_pos hpb]
        simp only [dedupSeen, if_pos hb, if_pos hb₂]
        exact ih _ _ h
      · have hb₂ : b ∉ seen₂ := fun hx => hb ((h b hpb).2 hx)
        rw [List.filter_cons, if_pos hpb]
        simp only [dedupSeen, if_neg hb, if_neg hb₂]
        rw [List.filter_cons, if_pos hpb]
        refine congrArg (b :: ·) (ih _ _ fun x hx => ?_)
        simp only [List.mem_cons]
        exact or_congr Iff.rfl (h x hx)
    · by_cases hb : b ∈ seen₁
      · rw [List.filter_cons, if_neg hpb]
        simp only [dedupSeen, if_pos hb]
        exact ih _ _ h
      · rw [List.filter_cons, if_neg hpb]
        simp only [dedupSeen, if_neg hb]
        rw [List.filter_cons, if_neg hpb]
        refine ih _ _ fun x hx => ?_
        have hxb : x ≠ b := fun hxe => hpb (hxe ▸ hx)
        simp only [List.mem_cons, hxb, false_or]
        exact h x hx

theorem mem_removeDuplicateEmails (l : List String) (a : String) :
    a ∈ removeDuplicateEmails l ↔ a ∈ l := by
  rw [removeDuplicateEmails, mem_dedupSeen]
  simp

theorem mem_filterValidEmails (l : List String) (a : String) :
    a ∈ filterValidEmails l ↔ a ∈ l ∧ isValidEmail a = true := by
  rw [filterValidEmails, List.mem_filter, mem_removeDuplicateEmails]

theorem mem_normalizeEmails (l : List String) (a : String) :
    a ∈ normalizeEmails l ↔ ∃ r ∈ l, normalizeEmail r = a := by
  rw [normalizeEmails, mem_removeDuplicateEmails, List.mem_map]

/-! Lemmas about the insertion sort used to model `sort()` and
`ORDER BY`. -/

theorem insertLe_perm {α : Type} (le : α → α → Bool) (a : α) (l : List α) :
    (insertLe le a l).Perm (a :: l) := by
  induction l with
  | nil => exact List.Perm.refl _
  | cons b t ih =>
    by_cases h : le a b = true
    · simp only [insertLe, if_pos h]
      exact List.Perm.refl _
    · simp only [insertLe, if_neg h]
      exact (ih.cons b).trans (List.Perm.swap a b t)

theorem sortLe_perm {α : Type} (le : α → α → Bool) (l : List α) :
    (sortLe le l).Perm l := by
  induction l with
  | nil => exact List.Perm.refl _
  | cons a t ih =>
    exact (insertLe_perm le a (sortLe le t)).trans (ih.cons a)

theorem mem_sortLe {α : Type} (le : α → α → Bool) (l : List α) (a : α) :
    a ∈ sortLe le l ↔ a ∈ l :=
  (sortLe_perm le l).mem_iff

theorem mem_sortStrings (l : List String) (a : String) :
    a ∈ sortStrings l ↔ a ∈ l :=
  mem_sortLe _ l a

/-! Lemmas about the email-shape test: case-insensitivity, absence of
white space in valid emails, and stability of validity under
normalization. -/

theorem head_dropWhile_false {α : Type} (p : α → Bool) {l : List α} {a : α}
    {t : List α} (h : l.dropWhile p = a :: t) : p a = false := by
  induction l with
  | nil => simp at h
  | cons b u ih =>
    by_cases hb : p b = true
    · rw [List.dropWhile_cons, if_pos hb] at h
      exact ih h
    · rw [List.dropWhile_cons, if_neg hb] at h
      cases h
      simpa using hb

theorem emailShape_eq (l : List Char) :
    emailShape l =
      (!(l.takeWhile (fun c => c ≠ '@')).isEmpty &&
       (l.takeWhile (fun c => c ≠ '@')).all isTokenChar &&
       (!(l.dropWhile (fun c => c ≠ '@')).isEmpty &&
        ((l.dropWhile (fun c => c ≠ '@')).drop 1).all isTokenChar &&
        hasInteriorDot ((l.dropWhile (fun c => c ≠ '@')).drop 1))) := by
  unfold emailShape
  cases hd : l.dropWhile (fun c => decide (c ≠ '@')) with
  | nil => simp
  | cons b rest =>
    have hb : b = '@' := by
      have := head_dropWhile_false _ hd
      simpa using this
    subst hb
    simp [Bool.and_assoc, Bool.and_comm, Bool.and_left_comm]

theorem contains_dot_eq (y : List Char) :
    y.contains '.' = decide ('.' ∈ y) := by
  by_cases hy : '.' ∈ y <;> simp [List.elem_iff, hy]

theorem emailShape_map_lower (l : List Char) :
    emailShape (l.map lowerChar) = emailShape l := by
  have hAt : ∀ a, (fun c => decide (c ≠ '@')) (lowerChar a)
      = (fun c => decide (c ≠ '@')) a := by
    intro a
    simp only [ne_eq, decide_not, lowerChar_at_iff]
  have hdot : ∀ x : List Char,
      (x.map lowerChar).contains '.' = x.contains '.' := by
    intro x
    rw [contains_dot_eq, contains_dot_eq]
    apply decide_eq_decide.2
    rw [List.mem_map]
    constructor
    · rintro ⟨a, ha, he⟩
      have : a = '.' := (lowerChar_dot_iff a).1 he
      exact this ▸ ha
    · intro hx
      exact ⟨'.', hx, by decide⟩
  have hdotI : ∀ x : List Char,
      hasInteriorDot (x.map lowerChar) = hasInteriorDot x := by
    intro x
    unfold hasInteriorDot
    rw [← List.map_drop, ← List.map_dropLast, hdot]
  have map_isEmpty : ∀ (f : Char → Char) (x : List Char),
      (x.map f).isEmpty = x.isEmpty := by
    intro f x; cases x <;> rfl
  have tail_map : ∀ (f : Char → Char) (x : List Char),
      (x.map f).tail = x.tail.map f := by
    intro f x; cases x <;> rfl
  have all_lower : ∀ x : List Char,
      (x.map lowerChar).all isTokenChar = x.all isTokenChar := by
    intro x
    rw [List.all_map]
    have hfun : (isTokenChar ∘ lowerChar) = isTokenChar :=
      funext isTokenChar_lowerChar
    rw [hfun]
  rw [emailShape_eq, emailShape_eq,
      takeWhile_map_eq lowerChar _ _ hAt, dropWhile_map_eq lowerChar _ _ hAt,
      map_isEmpty, all_lower, map_isEmpty, List.drop_one, List.drop_one,
      tail_map, all_lower, hdotI]

theorem isTokenChar_not_space {c : Char} (h : isTokenChar c = true) :
    isJsSpace c = false := by
  unfold isTokenChar at h
  simp only [Bool.and_eq_true, Bool.not_eq_true'] at h
  exact h.1

theorem emailShape_no_space {l : List Char} (h : emailShape l = true) :
    ∀ c ∈ l, isJsSpace c = false := by
  rw [emailShape_eq] at h
  simp only [Bool.and_eq_true] at h
  obtain ⟨⟨hne, hloc⟩, ⟨hrest, hdom⟩, -⟩ := h
  intro c hc
  rw [← List.takeWhile_append_dropWhile (fun c => decide (c ≠ '@')) l]
    at hc
  rcases List.mem_append.1 hc with hc | hc
  · exact isTokenChar_not_space (List.all_eq_true.1 hloc c hc)
  · cases hd : l.dropWhile (fun c => decide (c ≠ '@')) with
    | nil => rw [hd] at hc; simp at hc
    | cons b rest =>
      have hb : b = '@' := by
        have := head_dropWhile_false _ hd
        simpa using this
      rw [hd] at hc hdom
      rcases List.mem_cons.1 hc with rfl | hc
      · rw [hb]; decide
      · exact isTokenChar_not_space (List.all_eq_true.1 hdom c (by simpa using hc))

theorem trimChars_eq_self_of_no_space {l : List Char}
    (h : ∀ c ∈ l, isJsSpace c = false) : trimChars l = l := by
  have hdw : ∀ m : List Char, (∀ c ∈ m, isJsSpace c = false) →
      m.dropWhile isJsSpace = m := by
    intro m hm
    cases m with
    | nil => rfl
    | cons a t =>
      rw [List.dropWhile_cons, if_neg (by simp [hm a (List.mem_cons_self a t)])]
  unfold trimChars
  rw [hdw l h, hdw l.reverse (fun c hc => h c (List.mem_reverse.1 hc)),
      List.reverse_reverse]

theorem isValidEmail_normalize_of_valid {s : String}
    (h : isValidEmail s = true) :
    isValidEmail (normalizeEmail s) = true := by
  unfold isValidEmail at h ⊢
  rw [normalizeEmail_data, trimChars_eq_self_of_no_space (emailShape_no_space h),
      emailShape_map_lower]
  exact h

theorem normalizeEmails_mem_valid {l : List String} {e : String}
    (hvalid : ∀ r ∈ l, isValidEmail r = true) (he : e ∈ normalizeEmails l) :
    isValidEmail e = true ∧ normalizeEmail e = e := by
  obtain ⟨r, hr, rfl⟩ := (mem_normalizeEmails l e).1 he
  exact ⟨isValidEmail_normalize_of_valid (hvalid r hr), normalizeEmail_idem r⟩

theorem normalizeEmails_pairwise (l : List String) :
    (normalizeEmails l).Pairwise
      (fun a b => normalizeEmail a ≠ normalizeEmail b) := by
  have hnd : (normalizeEmails l).Nodup := nodup_dedupSeen _ _
  refine hnd.imp_of_mem ?_
  intro a b ha hb hne heq
  obtain ⟨r, hr, rfl⟩ := (mem_normalizeEmails l a).1 ha
  obtain ⟨r2, hr2, rfl⟩ := (mem_normalizeEmails l b).1 hb
  rw [normalizeEmail_idem, normalizeEmail_idem] at heq
  exact hne heq

/-- Claim C2, counterexample.  On the input `"@a@b.c,@d@e.f"` — two
adjacent mentions separated only by a comma — `extractMentionedEmails`
does not return the two punctuation-free addresses: the comma is inside
the character class `[^\s@]`, so it is captured as part of the first
address. -/
theorem C2_counterexample :
    extractMentionedEmails "@a@b.c,@d@e.f" ≠ ["a@b.c", "d@e.f"] ∧
    (extractMentionedEmails "@a@b.c,@d@e.f").any
      (fun a => a.data.contains ',') = true := by
  decide

/-- Claim C2, amended.  Two adjacent mentions separated only by
punctuation are returned as two separate tokens (the `@` boundary
terminates the first match), but punctuation characters in `[^\s@]` do
not terminate a match: the separating comma stays attached to the end of
the first captured address. -/
theorem C2_amended_two_tokens :
    extractMentionedEmails "@a@b.c,@d@e.f" = ["a@b.c,", "d@e.f"] := by
  decide

/-- Claim C3, counterexample.  `filterValidEmails` deduplicates by raw
string value, not by canonical value: two differently-cased copies of the
same address both survive, so its output can contain two entries that are
equal after normalization. -/
theorem C3_counterexample :
    ¬ (filterValidEmails ["A@b.c", "a@b.c"]).Pairwise
        (fun a b => normalizeEmail a ≠ normalizeEmail b) := by
  decide

/-- Claim C3, amended.  Neither `filterValidEmails` nor `normalizeEmails`
grows the input length; `normalizeEmails` contains no two entries equal
after normalization; `filterValidEmails` only guarantees no duplicate raw
entries (it may contain two entries equal after normalization). -/
theorem C3_amended_bounds (l : List String) :
    (filterValidEmails l).length ≤ l.length ∧
    (normalizeEmails l).length ≤ l.length ∧
    (filterValidEmails l).Nodup ∧
    (normalizeEmails l).Pairwise
      (fun a b => normalizeEmail a ≠ normalizeEmail b) := by
  refine ⟨?_, ?_, ?_, normalizeEmails_pairwise l⟩
  · exact le_trans (List.length_filter_le _ _) (dedupSeen_length_le _ _)
  · exact le_trans (dedupSeen_length_le _ _) (le_of_eq (List.length_map _ _))
  · exact (nodup_dedupSeen _ _).filter _

/-- Claim C4, counterexample.  `filterValidEmails` applies `isValidEmail`
to the raw entry, not to its normalized form: an entry that is valid only
after trimming surrounding whitespace is dropped, although its normalized
form passes `isValidEmail`. -/
theorem C4_counterexample :
    isValidEmail (normalizeEmail " a@b.c ") = true ∧
    filterValidEmails [" a@b.c "] = [] := by
  decide

/-- Claim C4, amended.  `filterValidEmails` deduplicates the input by raw
value in first-seen order and keeps exactly the entries whose raw
(un-normalized) form passes `isValidEmail`; equivalently, it is the
first-seen-order deduplication of the raw-valid entries. -/
theorem C4_filter_characterization (l : List String) (e : String) :
    filterValidEmails l
      = removeDuplicateEmails (l.filter (fun x => isValidEmail x)) ∧
    (e ∈ filterValidEmails l ↔ e ∈ l ∧ isValidEmail e = true) := by
  constructor
  · rw [filterValidEmails, removeDuplicateEmails, removeDuplicateEmails]
    exact filter_dedupSeen _ [] [] l (fun x _ => Iff.rfl)
  · exact mem_filterValidEmails l e

/-! Lemmas about the normalized batch handled by `bulkCreateStudents`. -/

theorem filterValidEmails_idem (l : List String) :
    filterValidEmails (filterValidEmails l) = filterValidEmails l := by
  unfold filterValidEmails removeDuplicateEmails
  rw [dedupSeen_eq_self _ _ ((nodup_dedupSeen _ _).filter _) (by simp)]
  exact List.filter_eq_self.2 (fun a ha => (List.mem_filter.1 ha).2)

theorem bulkNormalized_valid_fix (emails : List String) :
    ∀ e ∈ bulkNormalized emails,
      isValidEmail e = true ∧ normalizeEmail e = e := by
  intro e he
  exact normalizeEmails_mem_valid
    (fun r hr => (mem_filterValidEmails emails r).1 hr |>.2) he

theorem bulkNormalized_nodup (emails : List String) :
    (bulkNormalized emails).Nodup :=
  nodup_dedupSeen _ _

theorem filterValid_bulkNormalized (emails : List String) :
    filterValidEmails (bulkNormalized emails) = bulkNormalized emails := by
  unfold filterValidEmails removeDuplicateEmails
  rw [dedupSeen_eq_self _ _ (bulkNormalized_nodup emails) (by simp)]
  exact List.filter_eq_self.2
    (fun a ha => (bulkNormalized_valid_fix emails a ha).1)

theorem normalizeEmails_bulkNormalized (emails : List String) :
    normalizeEmails (bulkNormalized emails) = bulkNormalized emails := by
  unfold normalizeEmails removeDuplicateEmails
  rw [List.map_congr_left
        (fun a ha => (bulkNormalized_valid_fix emails a ha).2)]
  have hid : List.map (fun a => a) (bulkNormalized emails)
      = bulkNormalized emails := by
    simp
  rw [hid]
  exact dedupSeen_eq_self _ _ (bulkNormalized_nodup emails) (by simp)

theorem normalizeEmails_ne_nil {l : List String} (h : l ≠ []) :
    normalizeEmails l ≠ [] := by
  cases l with
  | nil => exact absurd rfl h
  | cons a t =>
    unfold normalizeEmails removeDuplicateEmails
    simp [dedupSeen]

theorem bulkNormalized_ne_nil {emails : List String}
    (h : filterValidEmails emails ≠ []) : bulkNormalized emails ≠ [] :=
  normalizeEmails_ne_nil h

theorem findStudents_eq_filter (st : Store) (emails : List String)
    (h : filterValidEmails emails ≠ []) :
    bulkExisting st emails
      = st.students.filter
          (fun s => (bulkNormalized emails).contains s.email) := by
  unfold bulkExisting findStudentsByEmails
  have hm : bulkNormalized emails ≠ [] := bulkNormalized_ne_nil h
  rw [if_neg (by simp [List.isEmpty_iff, hm]), filterValid_bulkNormalized,
      if_neg (by simp [List.isEmpty_iff, hm]), normalizeEmails_bulkNormalized]

theorem mkStudents_map_email (n : Nat) (es : List String) :
    (mkStudents n es).map Student.email = es := by
  induction es generalizing n with
  | nil => rfl
  | cons e t ih => simp [mkStudents, ih]

/-- Unfolding of `bulkCreateStudents` in the no-failure case, for a
non-empty batch that survives validation. -/
theorem bulkCreate_false_eq (st : Store) (emails : List String)
    (hval : filterValidEmails emails ≠ []) :
    bulkCreateStudents false st emails =
      (⟨bulkExisting st emails
          ++ mkStudents st.nextId (bulkNewEmails st emails),
        (emails.filter (fun e => !isValidEmail e)).map
          (fun e => (e, INVALID_EMAIL_FORMAT)),
        emails.length⟩,
       { st with
          students := st.students
            ++ mkStudents st.nextId (bulkNewEmails st emails),
          nextId := st.nextId + (bulkNewEmails st emails).length }) := by
  have hne : emails ≠ [] := by
    intro h; rw [h] at hval; exact hval rfl
  unfold bulkCreateStudents
  rw [if_neg (by simp [List.isEmpty_iff, hne]),
      if_neg (by simp [List.isEmpty_iff, hval])]
  by_cases hnew : (bulkNewEmails st emails).isEmpty
  · rw [if_pos hnew]
    have hnil : bulkNewEmails st emails = [] := by
      simpa [List.isEmpty_iff] using hnew
    rw [hnil]
    simp [mkStudents]
  · rw [if_neg hnew, if_neg Bool.false_ne_true]

/-- Unfolding of `bulkCreateStudents` when the creation step fails, for a
batch with at least one entry that has no pre-existing row. -/
theorem bulkCreate_true_eq (st : Store) (emails : List String)
    (hval : filterValidEmails emails ≠ [])
    (hnew : bulkNewEmails st emails ≠ []) :
    bulkCreateStudents true st emails =
      (⟨bulkExisting st emails,
        (emails.filter (fun e => !isValidEmail e)).map
            (fun e => (e, INVALID_EMAIL_FORMAT))
          ++ (bulkNormalized emails).map (fun e => (e, DATABASE_ERROR)),
        emails.length⟩, st) := by
  have hne : emails ≠ [] := by
    intro h; rw [h] at hval; exact hval rfl
  unfold bulkCreateStudents
  rw [if_neg (by simp [List.isEmpty_iff, hne]),
      if_neg (by simp [List.isEmpty_iff, hval]),
      if_neg (by simp [List.isEmpty_iff, hnew]), if_pos rfl]

/-- Claim C1, counterexample.  Store with one existing student `a@b.c`;
the batch `["a@b.c", "x@y.z"]` needs to create `x@y.z` and the creation
step fails.  The pre-existing entry `a@b.c` is then recorded in `failed`
with the storage-failure reason while also remaining in `successful` —
contradicting the claim that exactly the entries with no prior row are in
`failed` and that pre-existing matches appear nowhere in `failed`. -/
theorem C1_counterexample :
    ("a@b.c", DATABASE_ERROR) ∈
      (bulkCreateStudents true ⟨[⟨1, "a@b.c", false⟩], [], 2⟩
        ["a@b.c", "x@y.z"]).1.failed ∧
    (⟨1, "a@b.c", false⟩ : Student) ∈
      (bulkCreateStudents true ⟨[⟨1, "a@b.c", false⟩], [], 2⟩
        ["a@b.c", "x@y.z"]).1.successful := by
  decide

/-- Claim C1, amended.  If the creation sub-step of `bulkCreateStudents`
fails as a whole, every normalized entry — both those with and those
without a prior existing row — is recorded in `failed` with the
storage-failure reason `DATABASE_ERROR`; the pre-existing matches found
before the failure remain in `successful` (and therefore appear in both
lists), and the store is unchanged (nothing partially succeeds). -/
theorem C1_bulk_failure (st : Store) (emails : List String)
    (hval : filterValidEmails emails ≠ [])
    (hnew : bulkNewEmails st emails ≠ []) :
    (bulkCreateStudents true st emails).1.successful
        = bulkExisting st emails ∧
    (∀ e ∈ bulkNormalized emails,
      (e, DATABASE_ERROR) ∈ (bulkCreateStudents true st emails).1.failed) ∧
    (∀ s ∈ bulkExisting st emails,
      (s.email, DATABASE_ERROR) ∈ (bulkCreateStudents true st emails).1.failed) ∧
    (bulkCreateStudents true st emails).2 = st := by
  rw [bulkCreate_true_eq st emails hval hnew]
  refine ⟨rfl, ?_, ?_, rfl⟩
  · intro e he
    exact List.mem_append_right _ (List.mem_map.2 ⟨e, he, rfl⟩)
  · intro s hs
    refine List.mem_append_right _ (List.mem_map.2 ⟨s.email, ?_, rfl⟩)
    rw [findStudents_eq_filter st emails hval] at hs
    have := (List.mem_filter.1 hs).2
    simpa [List.elem_iff] using this

/-- Claim C1, witness for the amended theorem at a concrete store and
batch. -/
theorem C1_bulk_failure_witness :
    filterValidEmails ["a@b.c", "x@y.z"] ≠ [] ∧
    bulkNewEmails ⟨[⟨1, "a@b.c", false⟩], [], 2⟩ ["a@b.c", "x@y.z"] ≠ [] ∧
    ((bulkCreateStudents true ⟨[⟨1, "a@b.c", false⟩], [], 2⟩
        ["a@b.c", "x@y.z"]).1.successful
      = bulkExisting ⟨[⟨1, "a@b.c", false⟩], [], 2⟩ ["a@b.c", "x@y.z"] ∧
    (∀ e ∈ bulkNormalized ["a@b.c", "x@y.z"],
      (e, DATABASE_ERROR) ∈
        (bulkCreateStudents true ⟨[⟨1, "a@b.c", false⟩], [], 2⟩
          ["a@b.c", "x@y.z"]).1.failed) ∧
    (∀ s ∈ bulkExisting ⟨[⟨1, "a@b.c", false⟩], [], 2⟩ ["a@b.c", "x@y.z"],
      (s.email, DATABASE_ERROR) ∈
        (bulkCreateStudents true ⟨[⟨1, "a@b.c", false⟩], [], 2⟩
          ["a@b.c", "x@y.z"]).1.failed) ∧
    (bulkCreateStudents true ⟨[⟨1, "a@b.c", false⟩], [], 2⟩
        ["a@b.c", "x@y.z"]).2 = ⟨[⟨1, "a@b.c", false⟩], [], 2⟩) :=
  ⟨by decide, by decide, C1_bulk_failure _ _ (by decide) (by decide)⟩

/-! Suspension: `NotFound` characterization and idempotent re-suspension. -/

theorem suspend_upd_idem (n : String) (s : Student) :
    (fun s => if s.email = n then { s with suspended := true } else s)
      ((fun s => if s.email = n then { s with suspended := true } else s) s)
    = (fun s => if s.email = n then { s with suspended := true } else s) s := by
  by_cases h : s.email = n <;> simp [h]

/-- Claim C5.  With a well-formed (validating) email, `suspendStudent`
fails with `NotFound` exactly when no student row carries the normalized
email; and when a first suspension succeeds, suspending again succeeds and
leaves the store unchanged (the conditional update matches on email only,
so re-suspending an already-suspended student is a no-op success). -/
theorem C5_suspend_notFound_iff_and_idempotent (st : Store) (e : String)
    (hv : isValidEmail (normalizeEmail e) = true) :
    (suspendStudent st e = .error .notFound ↔
      ∀ s ∈ st.students, s.email ≠ normalizeEmail e) ∧
    (∀ st', suspendStudent st e = .ok st' → suspendStudent st' e = .ok st') := by
  constructor
  · unfold suspendStudent
    rw [if_neg (by simp [hv])]
    by_cases hall :
        st.students.all (fun s => s.email ≠ normalizeEmail e) = true
    · rw [if_pos hall]
      constructor
      · intro _ s hs
        have := List.all_eq_true.1 hall s hs
        simpa using this
      · intro _; rfl
    · rw [if_neg hall]
      constructor
      · intro h; cases h
      · intro hforall
        exact absurd (List.all_eq_true.2 (fun s hs => by simp [hforall s hs]))
          hall
  · intro st' h
    unfold suspendStudent at h ⊢
    rw [if_neg (by simp [hv])] at h ⊢
    by_cases hall :
        st.students.all (fun s => s.email ≠ normalizeEmail e) = true
    · rw [if_pos hall] at h; cases h
    · rw [if_neg hall] at h
      cases h
      have hex : ∃ s ∈ st.students, s.email = normalizeEmail e := by
        by_contra hno
        push_neg at hno
        exact hall (List.all_eq_true.2 (fun s hs => by simp [hno s hs]))
      obtain ⟨s₀, hs₀, he₀⟩ := hex
      rw [if_neg]
      · apply congrArg Except.ok
        apply congrArg (fun l => Store.mk l st.teachers st.nextId)
        rw [List.map_map]
        exact List.map_congr_left
          (fun a _ => suspend_upd_idem (normalizeEmail e) a)
      · intro hall'
        have := List.all_eq_true.1 hall'
          ((fun s => if s.email = normalizeEmail e then
              { s with suspended := true } else s) s₀)
          (List.mem_map_of_mem _ hs₀)
        simp [he₀] at this

/-- Claim C5, witness: in a one-student store the first suspension
succeeds, the second is a no-op success, and on the empty store the
lookup fails with `NotFound`. -/
theorem C5_witness :
    (suspendStudent ⟨[⟨1, "a@b.c", false⟩], [], 2⟩ "a@b.c"
        = .error .notFound ↔
      ∀ s ∈ (⟨[⟨1, "a@b.c", false⟩], [], 2⟩ : Store).students,
        s.email ≠ normalizeEmail "a@b.c") ∧
    (∀ st', suspendStudent ⟨[⟨1, "a@b.c", false⟩], [], 2⟩ "a@b.c" = .ok st' →
      suspendStudent st' "a@b.c" = .ok st') :=
  C5_suspend_notFound_iff_and_idempotent _ _ (by decide)

/-! Notification recipients: every lookup error is swallowed. -/

/-- Claim C10.  `getNotificationRecipients` is total; whenever the
registered-students lookup fails — with `NotFound` for an unknown teacher
or `InvalidEmail` for a malformed one — the error is swallowed, the
registered contribution is empty, and the result is computed from the
mentioned active students alone. -/
theorem C10_notification_swallows_errors (st : Store) (te n : String)
    (herr : ∃ err, getTeacherStudents st (normalizeEmail te) = .error err) :
    getNotificationRecipients st te n
      = sortStrings (dedupSeen [] (mentionedActiveEmails st n)) := by
  obtain ⟨err, herr⟩ := herr
  simp only [getNotificationRecipients, herr, List.nil_append]

/-- Claim C10, witness: on the empty store with the malformed teacher
identifier `"bad"`, the lookup fails yet the recipient computation
returns the mentions-only result. -/
theorem C10_witness :
    (∃ err, getTeacherStudents (⟨[], [], 0⟩ : Store) (normalizeEmail "bad")
        = .error err) ∧
    getNotificationRecipients ⟨[], [], 0⟩ "bad" "hi @x@y.z"
      = sortStrings (dedupSeen [] (mentionedActiveEmails ⟨[], [], 0⟩ "hi @x@y.z")) :=
  ⟨⟨.invalidEmail, by decide⟩,
   C10_notification_swallows_errors _ _ _ ⟨.invalidEmail, by decide⟩⟩

/-! Common students: the all-or-nothing resolution policy. -/

theorem contains_eq_decide_mem {α : Type} [BEq α] [LawfulBEq α]
    [DecidableEq α] (m : List α) (a : α) :
    m.contains a = decide (a ∈ m) := by
  by_cases h : a ∈ m <;> simp [List.elem_iff, h]

/-- Claim C7.  For a non-empty request in which at least one validated,
normalized, distinct teacher email resolves to no stored teacher,
`getCommonStudents` succeeds with the empty list instead of failing. -/
theorem C7_common_missing_teacher (st : Store) (l : List String) (e : String)
    (hwf : (st.teachers.map Teacher.email).Nodup)
    (hne : l ≠ [])
    (he : e ∈ normalizeEmails (filterValidEmails l))
    (hmiss : ∀ t ∈ st.teachers, t.email ≠ e) :
    getCommonStudents st l = .ok [] := by
  have hval : filterValidEmails l ≠ [] := by
    intro hnil
    rw [hnil] at he
    simp [normalizeEmails, removeDuplicateEmails, dedupSeen] at he
  unfold getCommonStudents
  rw [if_neg (by simp [List.isEmpty_iff, hne]),
      if_neg (by simp [List.isEmpty_iff, hval])]
  set m := normalizeEmails (filterValidEmails l) with hm
  set ts := st.teachers.filter (fun t => m.contains t.email) with hts
  have hsub : (ts.map Teacher.email) ⊆ m := by
    intro x hx
    obtain ⟨t, ht, rfl⟩ := List.mem_map.1 hx
    have := (List.mem_filter.1 (hts ▸ ht)).2
    rw [contains_eq_decide_mem] at this
    simpa using this
  have hnodup : (ts.map Teacher.email).Nodup :=
    ((List.filter_sublist st.teachers).map Teacher.email).nodup hwf
  have hnotin : e ∉ ts.map Teacher.email := by
    intro hx
    obtain ⟨t, ht, hte⟩ := List.mem_map.1 hx
    exact hmiss t (List.mem_of_mem_filter (hts ▸ ht)) hte
  have hlt : ts.length ≠ m.length := by
    intro hlen
    have hsp : (ts.map Teacher.email).Subperm m := hnodup.subperm hsub
    have hperm : (ts.map Teacher.email).Perm m :=
      hsp.perm_of_length_le (by rw [List.length_map]; omega)
    exact hnotin (hperm.mem_iff.2 he)
  rw [if_pos hlt]

/-- Claim C7, witness: requesting `["a@b.c"]` against a store with no
teachers yields `ok []`. -/
theorem C7_witness :
    ((⟨[], [], 0⟩ : Store).teachers.map Teacher.email).Nodup ∧
    getCommonStudents ⟨[], [], 0⟩ ["a@b.c"] = .ok [] :=
  ⟨by decide,
   C7_common_missing_teacher ⟨[], [], 0⟩ ["a@b.c"] "a@b.c"
     (by decide) (by decide) (by decide) (by decide)⟩

/-! Suspended students are invisible to every read projection. -/

theorem email_unique {st : Store}
    (hwf : (st.students.map Student.email).Nodup) {a b : Student}
    (ha : a ∈ st.students) (hb : b ∈ st.students) (he : a.email = b.email) :
    a = b :=
  List.inj_on_of_nodup_map hwf ha hb he

theorem suspended_not_in_active {st : Store} {s : Student}
    (hwf : (st.students.map Student.email).Nodup)
    (hs : s ∈ st.students) (hsusp : s.suspended = true) (t : Teacher) :
    s.email ∉ activeMemberEmails st t := by
  intro hmem
  obtain ⟨r, hr, he⟩ := List.mem_map.1 hmem
  have hr1 := List.mem_filter.1 hr
  have hr2 := List.mem_filter.1 hr1.1
  have hrs : r = s := email_unique hwf hr2.1 hs he
  rw [hrs] at hr1
  simp [hsusp] at hr1

/-- Claim C8.  In a well-formed store, a suspended student's email never
appears in the output of `getTeacherStudents`, `getCommonStudents`, or
`getNotificationRecipients` — for any teacher argument and any
notification text, including texts that mention the suspended student. -/
theorem C8_suspended_never_visible (st : Store) (s : Student)
    (hwf : (st.students.map Student.email).Nodup)
    (hs : s ∈ st.students) (hsusp : s.suspended = true) :
    (∀ te l, getTeacherStudents st te = .ok l → s.email ∉ l) ∧
    (∀ tes l, getCommonStudents st tes = .ok l → s.email ∉ l) ∧
    (∀ te txt, s.email ∉ getNotificationRecipients st te txt) := by
  have hactive := fun t => suspended_not_in_active hwf hs hsusp t
  have hT : ∀ te l, getTeacherStudents st te = .ok l → s.email ∉ l := by
    intro te l h
    unfold getTeacherStudents at h
    cases hf : findTeacherByEmail st te with
    | error err => rw [hf] at h; cases h
    | ok o =>
      rw [hf] at h
      cases o with
      | none => cases h
      | some T =>
        injection h with h
        subst h
        intro hmem
        exact hactive T ((mem_sortStrings _ _).1 hmem)
  refine ⟨hT, ?_, ?_⟩
  · intro tes l h
    simp only [getCommonStudents] at h
    split at h
    · cases h
    split at h
    · cases h
    split at h
    · injection h with h
      subst h
      simp
    · split at h
      · injection h with h
        subst h
        simp
      · injection h with h
        subst h
        intro hmem
        exact hactive _ ((mem_sortStrings _ _).1 hmem)
      · injection h with h
        subst h
        intro hmem
        have h1 := (mem_sortStrings _ _).1 hmem
        have h2 := (List.mem_filter.1 h1).1
        have h3 := ((mem_dedupSeen _ _ _).1 h2).1
        exact hactive _ h3
  · intro te txt hmem
    simp only [getNotificationRecipients] at hmem
    have h1 := (mem_sortStrings _ _).1 hmem
    have h2 := ((mem_dedupSeen _ _ _).1 h1).1
    rcases List.mem_append.1 h2 with h3 | h3
    · cases hg : getTeacherStudents st (normalizeEmail te) with
      | ok l' =>
        rw [hg] at h3
        exact hT _ _ hg h3
      | error err =>
        rw [hg] at h3
        simp at h3
    · simp only [mentionedActiveEmails] at h3
      split at h3
      · simp at h3
      · obtain ⟨r, hr, he⟩ := List.mem_map.1 h3
        simp only [getStudentsByEmails] at hr
        split at hr
        · simp at hr
        · split at hr
          · simp at hr
          · have hr1 := (mem_sortLe _ _ _).1 hr
            have hr2 := List.mem_filter.1 hr1
            have hrs : r = s := email_unique hwf hr2.1 hs he
            have := hr2.2
            rw [hrs] at this
            simp [hsusp] at this

/-- Claim C8, witness: a store with a single suspended student registered
to one teacher. -/
theorem C8_witness :
    (∀ te l, getTeacherStudents
        ⟨[⟨1, "a@b.c", true⟩], [⟨5, "t@x.y", [1]⟩], 6⟩ te = .ok l →
      (⟨1, "a@b.c", true⟩ : Student).email ∉ l) ∧
    (∀ tes l, getCommonStudents
        ⟨[⟨1, "a@b.c", true⟩], [⟨5, "t@x.y", [1]⟩], 6⟩ tes = .ok l →
      (⟨1, "a@b.c", true⟩ : Student).email ∉ l) ∧
    (∀ te txt, (⟨1, "a@b.c", true⟩ : Student).email ∉
      getNotificationRecipients
        ⟨[⟨1, "a@b.c", true⟩], [⟨5, "t@x.y", [1]⟩], 6⟩ te txt) :=
  C8_suspended_never_visible _ _ (by decide) (by decide) (by decide)

/-! Common students: the result is a function of the set of validated,
normalized teacher emails. -/

theorem mem_bulkKey (l : List String) (x : String) :
    x ∈ normalizeEmails (filterValidEmails l) ↔
      ∃ r ∈ l, isValidEmail r = true ∧ normalizeEmail r = x := by
  rw [mem_normalizeEmails]
  constructor
  · rintro ⟨r, hr, rfl⟩
    obtain ⟨hrl, hrv⟩ := (mem_filterValidEmails l r).1 hr
    exact ⟨r, hrl, hrv, rfl⟩
  · rintro ⟨r, hrl, hrv, rfl⟩
    exact ⟨r, (mem_filterValidEmails l r).2 ⟨hrl, hrv⟩, rfl⟩

theorem getCommon_congr (st : Store) (l₁ l₂ : List String)
    (hnil : l₁ = [] ↔ l₂ = [])
    (hkey : ∀ x, x ∈ normalizeEmails (filterValidEmails l₁) ↔
                 x ∈ normalizeEmails (filterValidEmails l₂)) :
    getCommonStudents st l₁ = getCommonStudents st l₂ := by
  by_cases h1 : l₁ = []
  · have h2 : l₂ = [] := hnil.1 h1
    rw [h1, h2]
  · have h2 : l₂ ≠ [] := fun hx => h1 (hnil.2 hx)
    have hkeynil : normalizeEmails (filterValidEmails l₁) = []
        ↔ normalizeEmails (filterValidEmails l₂) = [] := by
      rw [List.eq_nil_iff_forall_not_mem, List.eq_nil_iff_forall_not_mem]
      exact ⟨fun h x hx => h x ((hkey x).2 hx),
             fun h x hx => h x ((hkey x).1 hx)⟩
    have hv12 : filterValidEmails l₁ = [] ↔ filterValidEmails l₂ = [] := by
      constructor <;> intro hx
      · by_contra hy
        exact normalizeEmails_ne_nil hy (hkeynil.1 (by rw [hx]; rfl))
      · by_contra hy
        exact normalizeEmails_ne_nil hy (hkeynil.2 (by rw [hx]; rfl))
    have c1 : ¬(l₁.isEmpty = true) := by simp [List.isEmpty_iff, h1]
    have c2 : ¬(l₂.isEmpty = true) := by simp [List.isEmpty_iff, h2]
    by_cases hval : filterValidEmails l₁ = []
    · have hval2 := hv12.1 hval
      have c3 : (filterValidEmails l₁).isEmpty = true := by
        simp [List.isEmpty_iff, hval]
      have c4 : (filterValidEmails l₂).isEmpty = true := by
        simp [List.isEmpty_iff, hval2]
      simp only [getCommonStudents]
      rw [if_neg c1, if_neg c2, if_pos c3, if_pos c4]
    · have hval2 : filterValidEmails l₂ ≠ [] := fun hx => hval (hv12.2 hx)
      have c3 : ¬((filterValidEmails l₁).isEmpty = true) := by
        simp [List.isEmpty_iff, hval]
      have c4 : ¬((filterValidEmails l₂).isEmpty = true) := by
        simp [List.isEmpty_iff, hval2]
      have hkeyperm : (normalizeEmails (filterValidEmails l₁)).Perm
          (normalizeEmails (filterValidEmails l₂)) :=
        (List.perm_ext_iff_of_nodup (nodup_dedupSeen _ _)
          (nodup_dedupSeen _ _)).2 hkey
      have hlen := hkeyperm.length_eq
      simp only [getCommonStudents]
      rw [if_neg c1, if_neg c2, if_neg c3, if_neg c4]
      have hteach : st.teachers.filter
            (fun t => (normalizeEmails (filterValidEmails l₁)).contains t.email)
          = st.teachers.filter
            (fun t => (normalizeEmails (filterValidEmails l₂)).contains t.email) := by
        apply List.filter_congr
        intro t _
        rw [contains_eq_decide_mem, contains_eq_decide_mem]
        exact decide_eq_decide.2 (hkey t.email)
      rw [hteach, hlen]

theorem isValidEmail_of_lower_eq {a b : String}
    (h : a.data.map lowerChar = b.data.map lowerChar) :
    isValidEmail a = isValidEmail b := by
  unfold isValidEmail
  rw [← emailShape_map_lower a.data, h, emailShape_map_lower]

theorem normalizeEmail_of_lower_eq {a b : String}
    (h : a.data.map lowerChar = b.data.map lowerChar) :
    normalizeEmail a = normalizeEmail b := by
  apply congrArg String.mk
  show (trimChars a.data).map lowerChar = (trimChars b.data).map lowerChar
  rw [← trimChars_map_lower, h, trimChars_map_lower]

/-- Claim C9.  `getCommonStudents` returns the same result on every
permutation of its input, and its result is unchanged when the input
additionally carries duplicate or differently-cased copies of teacher
emails already in the list (entries equal to an existing entry up to
ASCII case). -/
theorem C9_common_order_dup_case_insensitive (st : Store)
    (l l' extras : List String) (hperm : l.Perm l')
    (hextras : ∀ e ∈ extras, ∃ a ∈ l,
        a.data.map lowerChar = e.data.map lowerChar) :
    getCommonStudents st l' = getCommonStudents st l ∧
    getCommonStudents st (l ++ extras) = getCommonStudents st l := by
  constructor
  · apply getCommon_congr
    · constructor
      · intro h; exact (h ▸ hperm : l.Perm []).eq_nil
      · intro h; exact (h ▸ hperm.symm : l'.Perm []).eq_nil
    · intro x
      rw [mem_bulkKey, mem_bulkKey]
      constructor <;> rintro ⟨r, hr, hv, hn⟩
      · exact ⟨r, hperm.mem_iff.2 hr, hv, hn⟩
      · exact ⟨r, hperm.mem_iff.1 hr, hv, hn⟩
  · apply getCommon_congr
    · constructor
      · intro h
        exact (List.append_eq_nil.1 h).1
      · intro h
        subst h
        cases extras with
        | nil => rfl
        | cons e t =>
          obtain ⟨a, ha, -⟩ := hextras e (List.mem_cons_self e t)
          cases ha
    · intro x
      rw [mem_bulkKey, mem_bulkKey]
      constructor
      · rintro ⟨r, hr, hv, hn⟩
        rcases List.mem_append.1 hr with hr | hr
        · exact ⟨r, hr, hv, hn⟩
        · obtain ⟨a, ha, hae⟩ := hextras r hr
          exact ⟨a, ha, by rw [isValidEmail_of_lower_eq hae]; exact hv,
                 by rw [normalizeEmail_of_lower_eq hae]; exact hn⟩
      · rintro ⟨r, hr, hv, hn⟩
        exact ⟨r, List.mem_append_left _ hr, hv, hn⟩

/-- Claim C9, witness: a permuted list and a list extended with an exact
duplicate and a differently-cased copy, against a two-teacher store. -/
theorem C9_witness :
    getCommonStudents
        ⟨[⟨1, "x@g.com", false⟩], [⟨5, "t@x.y", [1]⟩, ⟨6, "u@x.y", [1]⟩], 9⟩
        ["u@x.y", "t@x.y"]
      = getCommonStudents
        ⟨[⟨1, "x@g.com", false⟩], [⟨5, "t@x.y", [1]⟩, ⟨6, "u@x.y", [1]⟩], 9⟩
        ["t@x.y", "u@x.y"] ∧
    getCommonStudents
        ⟨[⟨1, "x@g.com", false⟩], [⟨5, "t@x.y", [1]⟩, ⟨6, "u@x.y", [1]⟩], 9⟩
        (["t@x.y", "u@x.y"] ++ ["t@x.y", "T@x.y"])
      = getCommonStudents
        ⟨[⟨1, "x@g.com", false⟩], [⟨5, "t@x.y", [1]⟩, ⟨6, "u@x.y", [1]⟩], 9⟩
        ["t@x.y", "u@x.y"] :=
  C9_common_order_dup_case_insensitive _ ["t@x.y", "u@x.y"] ["u@x.y", "t@x.y"]
    ["t@x.y", "T@x.y"] (by decide) (by decide)

/-! Registration: after a successful run, every entry of the batch has a
stored row and the found teacher's membership covers the batch, so a
second identical run is a no-op. -/

theorem bulkExisting_post (st st₂ : Store) (emails : List String)
    (hval : filterValidEmails emails ≠ [])
    (hs : st₂.students
      = st.students ++ mkStudents st.nextId (bulkNewEmails st emails)) :
    bulkExisting st₂ emails
      = bulkExisting st emails
        ++ mkStudents st.nextId (bulkNewEmails st emails) := by
  rw [findStudents_eq_filter st₂ emails hval, hs, List.filter_append,
      ← findStudents_eq_filter st emails hval]
  congr 1
  apply List.filter_eq_self.2
  intro s hsm
  have hmail : s.email ∈ bulkNewEmails st emails :=
    mkStudents_map_email st.nextId (bulkNewEmails st emails) ▸
      List.mem_map_of_mem Student.email hsm
  have hmem : s.email ∈ bulkNormalized emails :=
    List.mem_of_mem_filter hmail
  rw [contains_eq_decide_mem]
  simpa using hmem

theorem bulkNewEmails_post (st st₂ : Store) (emails : List String)
    (hval : filterValidEmails emails ≠ [])
    (hs : st₂.students
      = st.students ++ mkStudents st.nextId (bulkNewEmails st emails)) :
    bulkNewEmails st₂ emails = [] := by
  unfold bulkNewEmails
  apply List.filter_eq_nil_iff.2
  intro e he
  rw [bulkExisting_post st st₂ emails hval hs]
  simp only [List.map_append, mkStudents_map_email]
  by_cases hex : e ∈ (bulkExisting st emails).map Student.email
  · simp [contains_eq_decide_mem, List.mem_append, hex]
  · have hnew : e ∈ bulkNewEmails st emails := by
      apply List.mem_filter.2
      refine ⟨he, ?_⟩
      simp [contains_eq_decide_mem, hex]
    simp [contains_eq_decide_mem, List.mem_append, hnew]

theorem bulk_successful_ne (st : Store) (emails : List String)
    (hval : filterValidEmails emails ≠ []) :
    bulkExisting st emails
      ++ mkStudents st.nextId (bulkNewEmails st emails) ≠ [] := by
  intro h
  obtain ⟨hex, hnew⟩ := List.append_eq_nil.1 h
  have hn : bulkNewEmails st emails = [] := by
    have := congrArg (List.map Student.email) hnew
    rwa [mkStudents_map_email] at this
  obtain ⟨e, he⟩ : ∃ e, e ∈ bulkNormalized emails := by
    cases hm : bulkNormalized emails with
    | nil => exact absurd hm (bulkNormalized_ne_nil hval)
    | cons a t => exact ⟨a, hm ▸ List.mem_cons_self a t⟩
  have hmem : e ∈ (bulkExisting st emails).map Student.email := by
    by_contra hcontra
    have : e ∈ bulkNewEmails st emails := by
      apply List.mem_filter.2
      exact ⟨he, by simp [contains_eq_decide_mem, hcontra]⟩
    rw [hn] at this
    cases this
  rw [hex] at hmem
  cases hmem

theorem find?_saveTeacher (st : Store) (tid : Nat) (ids : List Nat)
    (n : String) :
    (saveTeacherStudents st tid ids).teachers.find? (fun t => t.email = n)
      = Option.map
          (fun t => if t.id = tid then { t with studentIds := ids } else t)
          (st.teachers.find? (fun t => t.email = n)) := by
  unfold saveTeacherStudents
  have hcomp : ((fun t : Teacher => decide (t.email = n)) ∘
      (fun t => if t.id = tid then { t with studentIds := ids } else t))
      = (fun t : Teacher => decide (t.email = n)) := by
    funext t
    by_cases h : t.id = tid <;> simp [h]
  rw [List.find?_map, hcomp]

/-- Unfolding of `registerStudentsToTeacher` past the validation and
teacher-lookup steps. -/
theorem register_unfold (saveFails : Bool) (st : Store) (te : String)
    (es : List String) (hes : es ≠ [])
    (hv : isValidEmail (normalizeEmail te) = true) (T : Teacher)
    (hfind : st.teachers.find? (fun t => t.email = normalizeEmail te)
      = some T)
    (hval : filterValidEmails es ≠ []) :
    registerStudentsToTeacher saveFails st te es =
      (if (bulkCreateStudents saveFails st
            (filterValidEmails es)).1.successful.isEmpty = true
       then .ok (bulkCreateStudents saveFails st (filterValidEmails es)).2
       else if ((bulkCreateStudents saveFails st
            (filterValidEmails es)).1.successful.filter
              (fun s => !T.studentIds.contains s.id)).isEmpty = true
       then .ok (bulkCreateStudents saveFails st (filterValidEmails es)).2
       else .ok (saveTeacherStudents
         (bulkCreateStudents saveFails st (filterValidEmails es)).2 T.id
         (T.studentIds ++ ((bulkCreateStudents saveFails st
             (filterValidEmails es)).1.successful.filter
               (fun s => !T.studentIds.contains s.id)).map Student.id))) := by
  have hes' : ¬(es.isEmpty = true) := by simp [List.isEmpty_iff, hes]
  have hval' : ¬((filterValidEmails es).isEmpty = true) := by
    simp [List.isEmpty_iff, hval]
  simp only [registerStudentsToTeacher, findTeacherByEmail,
    normalizeEmail_idem, hv, if_neg hes', Bool.not_true, Bool.false_eq_true,
    if_false, hfind, if_neg hval']

/-- Claim C6.  Registration is idempotent: if registering a student list
to a teacher succeeds and produces store `st'`, running the identical
registration again on `st'` succeeds and leaves the store exactly at
`st'` — the second run resolves every student to an existing row already
contained in the teacher's membership, so no edge is added. -/
theorem C6_register_idempotent (st st' : Store) (te : String)
    (es : List String)
    (h : registerStudentsToTeacher false st te es = .ok st') :
    registerStudentsToTeacher false st' te es = .ok st' := by
  by_cases hes : es = []
  · rw [hes] at h
    simp [registerStudentsToTeacher] at h
  by_cases hv : isValidEmail (normalizeEmail te) = true
  case neg =>
    exfalso
    have hvf : isValidEmail (normalizeEmail te) = false := by
      simpa using hv
    simp [registerStudentsToTeacher, findTeacherByEmail, normalizeEmail_idem,
      hvf, List.isEmpty_iff, hes] at h
  obtain ⟨T, hfind⟩ : ∃ T,
      st.teachers.find? (fun t => t.email = normalizeEmail te) = some T := by
    cases hf : st.teachers.find? (fun t => t.email = normalizeEmail te) with
    | none =>
      exfalso
      simp [registerStudentsToTeacher, findTeacherByEmail,
        normalizeEmail_idem, hv, List.isEmpty_iff, hes, hf] at h
    | some T => exact ⟨T, rfl⟩
  by_cases hval : filterValidEmails es = []
  case pos =>
    exfalso
    simp [registerStudentsToTeacher, findTeacherByEmail, normalizeEmail_idem,
      hv, List.isEmpty_iff, hes, hfind, hval] at h
  have hvalfix : filterValidEmails (filterValidEmails es) ≠ [] := by
    rw [filterValidEmails_idem]; exact hval
  rw [register_unfold false st te es hes hv T hfind hval,
      bulkCreate_false_eq st (filterValidEmails es) hvalfix] at h
  simp only at h
  have hsne : ¬((bulkExisting st (filterValidEmails es)
      ++ mkStudents st.nextId
        (bulkNewEmails st (filterValidEmails es))).isEmpty = true) := by
    simp only [List.isEmpty_iff]
    exact bulk_successful_ne st (filterValidEmails es) hvalfix
  rw [if_neg hsne] at h
  by_cases hnewstu : ((bulkExisting st (filterValidEmails es)
      ++ mkStudents st.nextId (bulkNewEmails st (filterValidEmails es))).filter
        (fun s => !T.studentIds.contains s.id)).isEmpty = true
  · -- second run after a run that added no membership edge
    rw [if_pos hnewstu] at h
    injection h with h
    subst h
    have hfindB : (({ st with
        students := st.students ++ mkStudents st.nextId
          (bulkNewEmails st (filterValidEmails es)),
        nextId := st.nextId + (bulkNewEmails st (filterValidEmails es)).length
      } : Store)).teachers.find? (fun t => t.email = normalizeEmail te)
        = some T := hfind
    rw [register_unfold false ({ st with
        students := st.students ++ mkStudents st.nextId
          (bulkNewEmails st (filterValidEmails es)),
        nextId := st.nextId + (bulkNewEmails st (filterValidEmails es)).length
      } : Store) te es hes hv T hfindB hval,
        bulkCreate_false_eq ({ st with
        students := st.students ++ mkStudents st.nextId
          (bulkNewEmails st (filterValidEmails es)),
        nextId := st.nextId + (bulkNewEmails st (filterValidEmails es)).length
      } : Store) (filterValidEmails es) hvalfix]
    simp only
    rw [bulkNewEmails_post st ({ st with
        students := st.students ++ mkStudents st.nextId
          (bulkNewEmails st (filterValidEmails es)),
        nextId := st.nextId + (bulkNewEmails st (filterValidEmails es)).length
      } : Store) (filterValidEmails es) hvalfix rfl]
    rw [bulkExisting_post st ({ st with
        students := st.students ++ mkStudents st.nextId
          (bulkNewEmails st (filterValidEmails es)),
        nextId := st.nextId + (bulkNewEmails st (filterValidEmails es)).length
      } : Store) (filterValidEmails es) hvalfix rfl]
    simp only [mkStudents, List.append_nil, List.length_nil, Nat.add_zero]
    rw [if_neg hsne, if_pos hnewstu]
  · -- second run after a run that appended the new members
    rw [if_neg hnewstu] at h
    injection h with h
    subst h
    have hteq : ((saveTeacherStudents { st with
        students := st.students ++ mkStudents st.nextId
          (bulkNewEmails st (filterValidEmails es)),
        nextId := st.nextId + (bulkNewEmails st (filterValidEmails es)).length
      } T.id (T.studentIds ++ ((bulkExisting st (filterValidEmails es)
          ++ mkStudents st.nextId
            (bulkNewEmails st (filterValidEmails es))).filter
          (fun s => !T.studentIds.contains s.id)).map Student.id))).teachers.find?
        (fun t => t.email = normalizeEmail te)
        = some { T with studentIds := T.studentIds
            ++ ((bulkExisting st (filterValidEmails es)
                ++ mkStudents st.nextId
                  (bulkNewEmails st (filterValidEmails es))).filter
                (fun s => !T.studentIds.contains s.id)).map Student.id } := by
      rw [find?_saveTeacher]
      have hfind' : (({ st with
          students := st.students ++ mkStudents st.nextId
            (bulkNewEmails st (filterValidEmails es)),
          nextId := st.nextId
            + (bulkNewEmails st (filterValidEmails es)).length
        } : Store)).teachers.find? (fun t => t.email = normalizeEmail te)
          = some T := hfind
      rw [hfind']
      simp
    rw [register_unfold false (saveTeacherStudents ({ st with
        students := st.students ++ mkStudents st.nextId
          (bulkNewEmails st (filterValidEmails es)),
        nextId := st.nextId + (bulkNewEmails st (filterValidEmails es)).length
      } : Store) T.id
        (T.studentIds ++ ((bulkExisting st (filterValidEmails es)
            ++ mkStudents st.nextId
              (bulkNewEmails st (filterValidEmails es))).filter
            (fun s => !T.studentIds.contains s.id)).map Student.id)) te es hes hv _ hteq hval,
        bulkCreate_false_eq (saveTeacherStudents ({ st with
        students := st.students ++ mkStudents st.nextId
          (bulkNewEmails st (filterValidEmails es)),
        nextId := st.nextId + (bulkNewEmails st (filterValidEmails es)).length
      } : Store) T.id
        (T.studentIds ++ ((bulkExisting st (filterValidEmails es)
            ++ mkStudents st.nextId
              (bulkNewEmails st (filterValidEmails es))).filter
            (fun s => !T.studentIds.contains s.id)).map Student.id)) (filterValidEmails es) hvalfix]
    simp only
    rw [bulkNewEmails_post st (saveTeacherStudents ({ st with
        students := st.students ++ mkStudents st.nextId
          (bulkNewEmails st (filterValidEmails es)),
        nextId := st.nextId + (bulkNewEmails st (filterValidEmails es)).length
      } : Store) T.id
        (T.studentIds ++ ((bulkExisting st (filterValidEmails es)
            ++ mkStudents st.nextId
              (bulkNewEmails st (filterValidEmails es))).filter
            (fun s => !T.studentIds.contains s.id)).map Student.id)) (filterValidEmails es) hvalfix rfl]
    rw [bulkExisting_post st (saveTeacherStudents ({ st with
        students := st.students ++ mkStudents st.nextId
          (bulkNewEmails st (filterValidEmails es)),
        nextId := st.nextId + (bulkNewEmails st (filterValidEmails es)).length
      } : Store) T.id
        (T.studentIds ++ ((bulkExisting st (filterValidEmails es)
            ++ mkStudents st.nextId
              (bulkNewEmails st (filterValidEmails es))).filter
            (fun s => !T.studentIds.contains s.id)).map Student.id)) (filterValidEmails es) hvalfix rfl]
    simp only [mkStudents, List.append_nil, List.length_nil, Nat.add_zero]
    rw [if_neg hsne]
    have hnew2 : ((bulkExisting st (filterValidEmails es)
        ++ mkStudents st.nextId
          (bulkNewEmails st (filterValidEmails es))).filter
        (fun s => !(T.studentIds
          ++ ((bulkExisting st (filterValidEmails es)
              ++ mkStudents st.nextId
                (bulkNewEmails st (filterValidEmails es))).filter
              (fun s => !T.studentIds.contains s.id)).map Student.id).contains
            s.id)).isEmpty = true := by
      rw [List.isEmpty_iff, List.filter_eq_nil_iff]
      intro s hsmem
      simp only [Bool.not_eq_true', Bool.not_eq_false]
      rw [contains_eq_decide_mem]
      apply decide_eq_true
      by_cases hid : s.id ∈ T.studentIds
      · exact List.mem_append_left _ hid
      · apply List.mem_append_right
        apply List.mem_map_of_mem
        apply List.mem_filter.2
        refine ⟨hsmem, ?_⟩
        simp [contains_eq_decide_mem, hid]
    rw [if_pos hnew2]

/-- Claim C6, witness: registering one student twice to an existing
teacher. -/
theorem C6_witness :
    registerStudentsToTeacher false ⟨[], [⟨1, "t@x.y", []⟩], 2⟩ "t@x.y"
        ["s@x.y"]
      = .ok ⟨[⟨2, "s@x.y", false⟩], [⟨1, "t@x.y", [2]⟩], 3⟩ ∧
    registerStudentsToTeacher false ⟨[⟨2, "s@x.y", false⟩],
        [⟨1, "t@x.y", [2]⟩], 3⟩ "t@x.y" ["s@x.y"]
      = .ok ⟨[⟨2, "s@x.y", false⟩], [⟨1, "t@x.y", [2]⟩], 3⟩ :=
  ⟨by decide,
   C6_register_idempotent ⟨[], [⟨1, "t@x.y", []⟩], 2⟩ _ "t@x.y" ["s@x.y"]
     (by decide)⟩

end SchoolSys
